import Mathlib

/-!
Verification of the DockSens repository (`setup_project.py`) against its
natural-language specification.

Part 1 embeds the Python scaffold generator itself: `create_file`,
`generate_header`, the `files_config` table and `main`, together with the
pieces of the Python standard library they rely on (`str.strip`,
`textwrap.dedent`, `os.path.dirname`).  The filesystem is modelled as a list
of created directories plus an association list of written files.

Part 2 models the window discovery / switching engine that the specification
describes; that engine exists in the repository only as generated stubs and
intent comments, so its definitions are modelled from the spec (each such
definition says so in its doc comment).
-/

set_option maxHeartbeats 2000000
set_option maxRecDepth 8000

namespace SetupProject

/-- Python `str` whitespace, as used by `str.strip()` with no argument:
space, tab, newline, carriage return, vertical tab, form feed. -/
def pyIsSpace (c : Char) : Bool :=
  c == ' ' || c == '\t' || c == '\n' || c == '\r' || c == '\x0b' || c == '\x0c'

/-- `str.strip()` on the underlying character list: drop whitespace from both
ends. -/
def stripL (l : List Char) : List Char :=
  ((l.dropWhile pyIsSpace).reverse.dropWhile pyIsSpace).reverse

/-- Python `content.strip()`. -/
def pyStrip (s : String) : String := String.mk (stripL s.data)

/-- Python `content.lstrip()` (leading whitespace only). -/
def pyLStrip (s : String) : String := String.mk (s.data.dropWhile pyIsSpace)

/-- `os.path.dirname` for POSIX paths: everything up to the last `/`;
trailing slashes are stripped unless the head is empty or all slashes. -/
def dirname (p : String) : String :=
  let headRev := p.data.reverse.dropWhile (fun c => !(c == '/'))
  if headRev.any (fun c => !(c == '/')) then
    String.mk ((headRev.dropWhile (fun c => c == '/')).reverse)
  else
    String.mk headRev.reverse

/-- The filesystem state `setup_project.py` acts on: the set of directories
that exist (as a list) and the files written so far, in creation order. -/
structure FileSystem where
  dirs : List String
  files : List (String × String)
deriving DecidableEq

/-- `create_file(path, content)` from `setup_project.py`: ensure the parent
directory exists (`os.makedirs` when `dirname` is nonempty and missing), then
write `content.strip() + "\n"` to `path`. -/
def create_file (fs : FileSystem) (path content : String) : FileSystem :=
  let d := dirname path
  { dirs := if d ≠ "" ∧ d ∉ fs.dirs then d :: fs.dirs else fs.dirs,
    files := fs.files ++ [(path, pyStrip content ++ "\n")] }

/-- Python `text.split(sep)` for a one-character separator, on character
lists. -/
def splitOnChar (sep : Char) : List Char → List (List Char)
  | [] => [[]]
  | c :: rest =>
    let r := splitOnChar sep rest
    if c == sep then [] :: r
    else (c :: r.headD []) :: r.tail

/-- Inverse of `splitOnChar '\n'`: join lines with `'\n'`. -/
def joinLines : List (List Char) → List Char
  | [] => []
  | [l] => l
  | l :: ls => l ++ '\n' :: joinLines ls

/-- A line matching `textwrap.dedent`'s `^[ \t]+$`: nonempty and made of
blanks/tabs only.  Such lines are normalised to empty lines. -/
def wsOnlyLine (l : List Char) : Bool :=
  !l.isEmpty && l.all (fun c => c == ' ' || c == '\t')

/-- The `[ \t]*` indent of a line, as in `textwrap.dedent`'s leading
whitespace regex. -/
def leadingIndent (l : List Char) : List Char :=
  l.takeWhile (fun c => c == ' ' || c == '\t')

/-- Longest common prefix of two character lists (the margin computation of
`textwrap.dedent`). -/
def commonPrefix : List Char → List Char → List Char
  | a :: as, b :: bs => if a == b then a :: commonPrefix as bs else []
  | _, _ => []

/-- `textwrap.dedent`: whitespace-only lines are emptied; the margin is the
longest common indent of the remaining nonempty lines; that margin is removed
from every line that starts with it. -/
def dedent (s : String) : String :=
  let ls := (splitOnChar '\n' s.data).map (fun l => if wsOnlyLine l then [] else l)
  let indents := (ls.filter (fun l => !l.isEmpty)).map leadingIndent
  let margin := match indents with
    | [] => []
    | i :: is => is.foldl commonPrefix i
  String.mk (joinLines (ls.map (fun l =>
    if !margin.isEmpty && margin.isPrefixOf l then l.drop margin.length else l)))

/-- `generate_header(filename, imports, intent)` from `setup_project.py`:
the dedented Swift comment banner, import statements and TODO line. -/
def generate_header (filename : String) (imports : List String) (intent : String) : String :=
  let import_stmts := String.intercalate "\n" (imports.map (fun lib => "import " ++ lib))
  dedent ("\n        //\n        //  " ++ filename ++
    "\n        //  DockSens\n        //\n        //  Created by DockSens Setup Script.\n        //\n\n        " ++
    import_stmts ++ "\n\n        // TODO: " ++ intent ++
    "\n        // ---------------------------------------------------------\n        \n        ")

/-- One entry of the `files_config` dictionary: the path key and the
4-tuple value (filename, imports, intent, content). -/
structure ConfigEntry where
  path : String
  filename : String
  imports : List String
  intent : String
  content : String
deriving DecidableEq

/-- Suffix test on strings (Python `str.endswith`). -/
def strEndsWith (s suf : String) : Bool := suf.data.isSuffixOf s.data

/-- Prefix test on strings (Python `str.startswith`). -/
def strStartsWith (s pre : String) : Bool := pre.data.isPrefixOf s.data

/-- Remainder of `s` after the first occurrence of the pattern, if any. -/
def findRest (pat : List Char) : List Char → Option (List Char)
  | [] => if pat.isEmpty then some [] else none
  | c :: rest =>
    if pat.isPrefixOf (c :: rest) then some ((c :: rest).drop pat.length)
    else findRest pat rest

/-- Substring test. -/
def containsSubstr (s sub : String) : Bool := (findRest sub.data s.data).isSome

/-- All the given substrings occur in `s`, in order, at disjoint positions. -/
def containsInOrder (s : List Char) : List String → Bool
  | [] => true
  | p :: ps =>
    match findRest p.data s with
    | some rest => containsInOrder rest ps
    | none => false

/-- The JSON text bound to `xcstrings_content` in `setup_project.py`: the
result of `json.dumps` on the literal dictionary at the top of `main`, with
`indent=2` and `ensure_ascii=False`. -/
def xcstrings_content : String :=
  "\x7b\n  \"sourceLanguage\": \"en\",\n  \"strings\": \x7b\n    \"Settings\": \x7b\n      \"localizations\": \x7b\n        \"zh-Hans\": \x7b\n          \"stringUnit\": \x7b\n            \"state\": \"translated\",\n            \"value\": \"设置\"\n          \x7d\n        \x7d\n      \x7d\n    \x7d,\n    \"Quit\": \x7b\n      \"localizations\": \x7b\n        \"zh-Hans\": \x7b\n          \"stringUnit\": \x7b\n            \"state\": \"translated\",\n            \"value\": \"退出\"\n          \x7d\n        \x7d\n      \x7d\n    \x7d,\n    \"General\": \x7b\n      \"localizations\": \x7b\n        \"zh-Hans\": \x7b\n          \"stringUnit\": \x7b\n            \"state\": \"translated\",\n            \"value\": \"通用\"\n          \x7d\n        \x7d\n      \x7d\n    \x7d,\n    \"Shortcuts\": \x7b\n      \"localizations\": \x7b\n        \"zh-Hans\": \x7b\n          \"stringUnit\": \x7b\n            \"state\": \"translated\",\n            \"value\": \"快捷键\"\n          \x7d\n        \x7d\n      \x7d\n    \x7d,\n    \"Pro\": \x7b\n      \"localizations\": \x7b\n        \"zh-Hans\": \x7b\n          \"stringUnit\": \x7b\n            \"state\": \"translated\",\n            \"value\": \"专业版\"\n          \x7d\n        \x7d\n      \x7d\n    \x7d,\n    \"Unlock Pro\": \x7b\n      \"localizations\": \x7b\n        \"zh-Hans\": \x7b\n          \"stringUnit\": \x7b\n            \"state\": \"translated\",\n            \"value\": \"解锁专业版\"\n          \x7d\n        \x7d\n      \x7d\n    \x7d,\n    \"NEW\": \x7b\n      \"comment\": \"Badge label for new features\",\n      \"localizations\": \x7b\n        \"zh-Hans\": \x7b\n          \"stringUnit\": \x7b\n            \"state\": \"translated\",\n            \"value\": \"新\"\n          \x7d\n        \x7d\n      \x7d\n    \x7d,\n    \"Toggle Window Switcher\": \x7b\n      \"comment\": \"App Intent title\",\n      \"localizations\": \x7b\n        \"zh-Hans\": \x7b\n          \"stringUnit\": \x7b\n            \"state\": \"translated\",\n            \"value\": \"切换窗口切换器\"\n          \x7d\n        \x7d\n      \x7d\n    \x7d,\n    \"Launch at Login\": \x7b\n      \"localizations\": \x7b\n        \"zh-Hans\": \x7b\n          \"stringUnit\": \x7b\n            \"state\": \"translated\",\n            \"value\": \"开机自启\"\n          \x7d\n        \x7d\n      \x7d\n    \x7d,\n    \"Restore Purchases\": \x7b\n      \"localizations\": \x7b\n        \"zh-Hans\": \x7b\n          \"stringUnit\": \x7b\n            \"state\": \"translated\",\n            \"value\": \"恢复购买\"\n          \x7d\n        \x7d\n      \x7d\n    \x7d\n  \x7d,\n  \"version\": \"1.0\"\n\x7d"

/-- The `files_config` dictionary of `setup_project.py`, in insertion order.
Each entry is (path key, filename, imports, intent, content); the content of
the first entry is the `xcstrings_content` JSON string. -/
def files_config : List ConfigEntry := [
  { path := "DockSens_Project_Structure/Resources/Localizable.xcstrings",
    filename := "Localizable.xcstrings",
    imports := [],
    intent := "多语言字符串目录 (String Catalog)。支持英语(开发语言)和简体中文。",
    content := xcstrings_content },
  { path := "DockSens_Project_Structure/App/DockSensApp.swift",
    filename := "DockSensApp.swift",
    imports := ["SwiftUI", "AppIntents"],
    intent := "App 入口。注入全局 AppState。",
    content := "\n@main\nstruct DockSensApp: App \x7b\n    @State private var appState = AppState()\n    \n    var body: some Scene \x7b\n        Settings \x7b\n            SettingsView()\n                .environment(appState)\n        \x7d\n        \n        MenuBarExtra(\"DockSens\", systemImage: \"dock.rectangle\") \x7b\n            // SwiftUI 会自动查找 Localizable.xcstrings 中的 \"Settings\" 和 \"Quit\"\n            Button(\"Settings\") \x7b\n                NSApp.sendAction(Selector((\"showSettingsWindow:\")), to: nil, from: nil)\n            \x7d\n            Divider()\n            Button(\"Quit\") \x7b\n                NSApplication.shared.terminate(nil)\n            \x7d\n        \x7d\n    \x7d\n\x7d\n            " },
  { path := "DockSens_Project_Structure/Core/State/AppState.swift",
    filename := "AppState.swift",
    imports := ["SwiftUI", "Observation"],
    intent := "全局单一事实来源。整合 WindowManager 和 StoreService 的状态。",
    content := "\n@MainActor\n@Observable\nfinal class AppState \x7b\n    // --- 核心状态 ---\n    var runningWindows: [WindowInfo] = []\n    var isSwitcherVisible: Bool = false\n    var isPro: Bool = false // 内购状态\n    \n    // --- 内部服务 ---\n    private let windowManager = WindowManager()\n    private let storeService = StoreService()\n    \n    init() \x7b\n        Task \x7b await startMonitoringWindows() \x7d\n        Task \x7b await startMonitoringPurchases() \x7d\n    \x7d\n    \n    private func startMonitoringWindows() async \x7b\n        for await windows in windowManager.windowsStream() \x7b\n            self.runningWindows = windows\n        \x7d\n    \x7d\n    \n    private func startMonitoringPurchases() async \x7b\n        for await status in storeService.proStatusStream() \x7b\n            self.isPro = status\n        \x7d\n    \x7d\n    \n    func toggleSwitcher() \x7b\n        guard !isSwitcherVisible else \x7b \n            windowManager.hideSwitcher()\n            isSwitcherVisible = false\n            return\n        \x7d\n        windowManager.showSwitcher()\n        isSwitcherVisible = true\n    \x7d\n\x7d\n            " },
  { path := "DockSens_Project_Structure/Core/WindowManager/WindowManager.swift",
    filename := "WindowManager.swift",
    imports := ["AppKit", "Foundation"],
    intent := "主线程窗口控制器。管理 NSPanel 实例的生命周期。",
    content := "\n@MainActor\nclass WindowManager \x7b\n    private var switcherPanel: NSPanel?\n    private let engine = WindowEngine()\n    \n    func showSwitcher() \x7b /* ... */ \x7d\n    func hideSwitcher() \x7b switcherPanel?.orderOut(nil) \x7d\n    \n    func windowsStream() -> AsyncStream<[WindowInfo]> \x7b\n        return AsyncStream \x7b _ in \x7d\n    \x7d\n\x7d\n            " },
  { path := "DockSens_Project_Structure/Core/WindowManager/WindowEngine.swift",
    filename := "WindowEngine.swift",
    imports := ["ApplicationServices", "CoreGraphics"],
    intent := "后台 Actor。负责繁重的 AXUIElement 查询。",
    content := "\nstruct WindowInfo: Identifiable, Sendable \x7b\n    let id: Int\n    let title: String\n    let appName: String\n    let frame: CGRect\n\x7d\n\nactor WindowEngine \x7b\n    func scanWindows() async -> [WindowInfo] \x7b\n        return []\n    \x7d\n\x7d\n            " },
  { path := "DockSens_Project_Structure/Core/Store/StoreService.swift",
    filename := "StoreService.swift",
    imports := ["StoreKit", "Foundation"],
    intent := "内购逻辑服务。",
    content := "\nactor StoreService \x7b\n    private let proProductID = \"com.docksens.pro.lifetime\"\n\n    nonisolated func proStatusStream() -> AsyncStream<Bool> \x7b\n        return AsyncStream \x7b continuation in\n            Task \x7b await updateStatus(continuation: continuation) \x7d\n            Task \x7b\n                for await _ in Transaction.updates \x7b\n                    await updateStatus(continuation: continuation)\n                \x7d\n            \x7d\n        \x7d\n    \x7d\n    \n    private func updateStatus(continuation: AsyncStream<Bool>.Continuation) async \x7b\n        var hasPro = false\n        for await result in Transaction.currentEntitlements \x7b\n            if case .verified(let transaction) = result, transaction.productID == proProductID \x7b\n                hasPro = true\n                break\n            \x7d\n        \x7d\n        continuation.yield(hasPro)\n    \x7d\n\x7d\n            " },
  { path := "DockSens_Project_Structure/Core/Shortcuts/GlobalShortcuts.swift",
    filename := "GlobalShortcuts.swift",
    imports := ["AppKit", "AppIntents"],
    intent := "定义全局热键名称和 App Intents。",
    content := "\n// import KeyboardShortcuts\n\nstruct ToggleSwitcherIntent: AppIntent \x7b\n    // AppIntents 自动支持 LocalizedStringResource。\n    // 这里的字符串键值 \"Toggle Window Switcher\" 会自动匹配 .xcstrings 中的条目。\n    static var title: LocalizedStringResource = \"Toggle Window Switcher\"\n    \n    @MainActor\n    func perform() async throws -> some IntentResult \x7b\n        // 这里需要访问全局状态，实际开发中建议使用 Dependency Injection 系统\n        // let appState = ...\n        return .result()\n    \x7d\n\x7d\n            " },
  { path := "DockSens_Project_Structure/UI/Store/StoreView.swift",
    filename := "StoreView.swift",
    imports := ["SwiftUI", "StoreKit"],
    intent := "内购界面。",
    content := "\nstruct ProStoreView: View \x7b\n    var body: some View \x7b\n        SubscriptionStoreView(groupID: \"group.com.docksens.pro\") \x7b\n            VStack \x7b\n                Image(systemName: \"sparkles\").font(.largeTitle)\n                // SwiftUI 会自动查找翻译\n                Text(\"Unlock Pro\").font(.title2)\n            \x7d\n            .containerBackground(.blue.gradient, for: .subscriptionStoreHeader)\n        \x7d\n        // 甚至系统提供的按钮文案也可以自定义 Key\n        .storeButton(.visible, for: .restorePurchases)\n    \x7d\n\x7d\n            " },
  { path := "DockSens_Project_Structure/UI/Settings/SettingsView.swift",
    filename := "SettingsView.swift",
    imports := ["SwiftUI"],
    intent := "设置窗口。",
    content := "\nstruct SettingsView: View \x7b\n    @Environment(AppState.self) var appState\n    \n    var body: some View \x7b\n        TabView \x7b\n            GeneralSettingsView()\n                .tabItem \x7b Label(\"General\", systemImage: \"gear\") \x7d\n            \n            Text(\"Shortcuts Placeholder\")\n                .tabItem \x7b Label(\"Shortcuts\", systemImage: \"keyboard\") \x7d\n                \n            ProStoreView()\n                .tabItem \x7b \n                    Label(\"Pro\", systemImage: appState.isPro ? \"star.fill\" : \"star\") \n                \x7d\n                .badge(appState.isPro ? nil : \"NEW\")\n        \x7d\n        .scenePadding()\n        .frame(minWidth: 500, minHeight: 400)\n    \x7d\n\x7d\n            " },
  { path := "DockSens_Project_Structure/UI/Settings/GeneralSettingsView.swift",
    filename := "GeneralSettingsView.swift",
    imports := ["SwiftUI"],
    intent := "通用设置。",
    content := "\nstruct GeneralSettingsView: View \x7b\n    // 这是一个简单的占位符，展示如何使用 Localized Key\n    @AppStorage(\"launchAtLogin\") var launchAtLogin = false\n    \n    var body: some View \x7b\n        Form \x7b\n            // \"Launch at Login\" 键值在 .xcstrings 中已有中文翻译\n            Toggle(\"Launch at Login\", isOn: $launchAtLogin)\n        \x7d\n        .padding()\n    \x7d\n\x7d\n            " },
  { path := "DockSens_Project_Structure/Utilities/Permissions.swift",
    filename := "Permissions.swift",
    imports := ["AppKit"],
    intent := "权限检查工具。",
    content := "enum Permissions \x7b static func isAccessibilityTrusted() -> Bool \x7b AXIsProcessTrusted() \x7d \x7d" }
]

/-- The placeholder body emitted by `main` when a config entry's content is
empty: `f"// 代码实现...\n// class \x7bfilename.split('.')[0]\x7d \x7b\x7b \x7d\x7d"`. -/
def fallbackBody (filename : String) : String :=
  "// 代码实现...\n// class " ++
    String.mk ((splitOnChar '.' filename.data).headD []) ++ " \x7b \x7d"

/-- The loop body of `main` over `files_config.items()`: `.xcstrings` entries
are written raw; every other entry is written as
`generate_header(...) + (content or fallback)`. -/
def runConfig (fs : FileSystem) : List ConfigEntry → FileSystem
  | [] => fs
  | e :: rest =>
    let fs' :=
      if strEndsWith e.filename ".xcstrings" then create_file fs e.path e.content
      else
        create_file fs e.path (generate_header e.filename e.imports e.intent ++
          (if e.content ≠ "" then e.content else fallbackBody e.filename))
    runConfig fs' rest

/-- `main()` of `setup_project.py`, as a function of the starting filesystem
state: iterate `files_config` in insertion order. -/
def main (fs : FileSystem) : FileSystem := runConfig fs files_config

/-- The empty starting filesystem. -/
def initFS : FileSystem := ⟨[], []⟩

/-- The files created by one run of `main` on an empty filesystem. -/
def mainFiles : List (String × String) := (main initFS).files

/-- Association-list lookup of a written file by path. -/
def lookupFile (k : String) : List (String × String) → Option String
  | [] => none
  | (p, c) :: rest => if p = k then some c else lookupFile k rest

/-- `main`'s loop with the placeholder (`// 代码实现...`) branch removed: every
non-`.xcstrings` entry is written as header plus its configured content,
unconditionally.  Used to state that the placeholder branch is unreachable. -/
def runConfigNoFallback (fs : FileSystem) : List ConfigEntry → FileSystem
  | [] => fs
  | e :: rest =>
    let fs' :=
      if strEndsWith e.filename ".xcstrings" then create_file fs e.path e.content
      else create_file fs e.path (generate_header e.filename e.imports e.intent ++ e.content)
    runConfigNoFallback fs' rest

/-- The content `main` writes for one `files_config` entry: the raw content
for `.xcstrings` entries, header plus content (or placeholder) otherwise, both
through `create_file`'s `strip() + "\n"`. -/
def writtenContent (e : ConfigEntry) : String :=
  if strEndsWith e.filename ".xcstrings" then pyStrip e.content ++ "\n"
  else
    pyStrip (generate_header e.filename e.imports e.intent ++
      (if e.content ≠ "" then e.content else fallbackBody e.filename)) ++ "\n"

/-- The written text has no leading whitespace character. -/
def noLeadingWS (s : String) : Prop :=
  ∀ c, s.data.head? = some c → pyIsSpace c = false

/-- The written text ends with exactly one trailing newline: its last
character is `'\n'` and the character before that (if any) is not. -/
def endsWithOneNewline (s : String) : Prop :=
  s.data.reverse.head? = some '\n' ∧ ∀ c, s.data.reverse.tail.head? = some c → c ≠ '\n'

end SetupProject

namespace Engine

/-- Modelled from the spec: the `WindowRecord` data model of §3 (the engine is
absent from the repository; only the generated `WindowInfo` stub exists).
`frame` is the stored on-screen rectangle (x, y, width, height), modelled with
integer coordinates since the engine only stores it. -/
structure WindowRecord where
  id : Nat
  title : String
  ownerName : String
  frame : Int × Int × Int × Int
  zOrderRank : Nat
deriving DecidableEq

/-- Modelled from the spec: one raw entry of a Window Snapshot Source scan
(§4.1), carrying the stable matching key — owning process (`ownerName`) plus
window handle-equivalent (`handle`) — and the mutable fields. -/
structure RawWindow where
  ownerName : String
  handle : Nat
  title : String
  frame : Int × Int × Int × Int
  zOrderRank : Nat
deriving DecidableEq

/-- Modelled from the spec: the error taxonomy of §7. -/
inductive Condition where
  | PermissionDenied
  | NoCandidates
  | StaleTarget
  | MalformedRecord
deriving DecidableEq

/-- Modelled from the spec: a Window Registry entry pairing the stable
matching key of a window with its current record. -/
structure KeyedRecord where
  owner : String
  handle : Nat
  record : WindowRecord
deriving DecidableEq

/-- The stable matching key of a raw scan entry. -/
def keyOf (w : RawWindow) : String × Nat := (w.ownerName, w.handle)

/-- Modelled from the spec: the Window Registry (§4.2) — the last reconciled
entries plus the fresh-identity counter used for newly appearing windows. -/
structure Registry where
  entries : List KeyedRecord
  nextId : Nat
deriving DecidableEq

/-- Modelled from the spec: scan ordering — raw windows compare by
`zOrderRank` (0 = frontmost). -/
def zle (a b : RawWindow) : Prop := a.zOrderRank ≤ b.zOrderRank

instance : DecidableRel zle := fun a b => Nat.decLe a.zOrderRank b.zOrderRank

instance : IsTotal RawWindow zle := ⟨fun a b => Nat.le_total a.zOrderRank b.zOrderRank⟩

instance : IsTrans RawWindow zle := ⟨fun _ _ _ => Nat.le_trans⟩

/-- Modelled from the spec: the output snapshot follows the new scan's
`zOrderRank` strictly (§4.2), so reconciliation orders the raw scan by
`zOrderRank`. -/
def sortScan (l : List RawWindow) : List RawWindow := List.insertionSort zle l

/-- A fresh `WindowRecord` built from a raw scan entry and an identity. -/
def mkRecord (w : RawWindow) (i : Nat) : WindowRecord :=
  ⟨i, w.title, w.ownerName, w.frame, w.zOrderRank⟩

/-- A registry entry built from a raw scan entry and an identity. -/
def mkEntry (w : RawWindow) (i : Nat) : KeyedRecord :=
  ⟨w.ownerName, w.handle, mkRecord w i⟩

/-- Look a stable key up among registry entries (first match). -/
def findKey : List KeyedRecord → String → Nat → Option WindowRecord
  | [], _, _ => none
  | e :: es, o, h =>
    if e.owner = o ∧ e.handle = h then some e.record else findKey es o h

/-- Modelled from the spec: the per-record reconciliation pass of §4.2 over an
ordered scan — a matched key preserves the previous `id` and updates the
mutable fields; an unmatched key receives a freshly generated `id`; previous
records without a match are dropped (the output is rebuilt from the scan). -/
def reconcileList (old : List KeyedRecord) : Nat → List RawWindow → List KeyedRecord × Nat
  | next, [] => ([], next)
  | next, w :: ws =>
    match findKey old w.ownerName w.handle with
    | some r =>
      (mkEntry w r.id :: (reconcileList old next ws).1, (reconcileList old next ws).2)
    | none =>
      (mkEntry w next :: (reconcileList old (next + 1) ws).1, (reconcileList old (next + 1) ws).2)

/-- Modelled from the spec: `reconcile(rawScan) -> RegistrySnapshot` (§4.2):
order the raw scan by `zOrderRank` and run the matching pass against the
previous entries. -/
def reconcile (reg : Registry) (scan : List RawWindow) : Registry :=
  ⟨(reconcileList reg.entries reg.nextId (sortScan scan)).1,
   (reconcileList reg.entries reg.nextId (sortScan scan)).2⟩

/-- The RegistrySnapshot held by a registry state: its records, front to
back. -/
def snapshot (reg : Registry) : List WindowRecord := reg.entries.map KeyedRecord.record

/-- Modelled from the spec: a SwitcherSession (§3) — the candidates frozen at
activation and the wrapping cursor. -/
structure SwitcherSession where
  candidates : List WindowRecord
  cursorIndex : Nat
deriving DecidableEq

/-- Modelled from the spec: the Switcher State Machine states (§4.3).  The
transient `Committing` phase has no behaviour of its own (its only transition
is back to `Idle`), so commit is modelled as one atomic step to `Idle`. -/
inductive SwitcherState where
  | Idle
  | Active (session : SwitcherSession)
deriving DecidableEq

/-- Modelled from the spec: the inbound events of §6. -/
inductive SwitcherEvent where
  | activate (direction : Int)
  | step (direction : Int)
  | commit
  | cancel
deriving DecidableEq

/-- Modelled from the spec: the transition function of the Switcher State
Machine (§4.3).  Output: next state, signalled condition, and the id of the
window whose raise is requested on commit (none when the target is stale). -/
def switcherStep (st : SwitcherState) (current : List WindowRecord) (ev : SwitcherEvent) :
    SwitcherState × Option Condition × Option Nat :=
  match st, ev with
  | .Idle, .activate d =>
    if current.isEmpty then (.Idle, some .NoCandidates, none)
    else (.Active ⟨current, if 0 ≤ d then 0 else current.length - 1⟩, none, none)
  | .Active s, .step d =>
    (.Active ⟨s.candidates, (((s.cursorIndex : Int) + d) % (s.candidates.length : Int)).toNat⟩,
     none, none)
  | .Active s, .commit =>
    (.Idle, none,
     ((s.candidates.get? s.cursorIndex).map WindowRecord.id).filter
       (fun i => current.any (fun r => r.id == i)))
  | .Active _, .cancel => (.Idle, none, none)
  | st, _ => (st, none, none)

/-- Modelled from the spec: the Update Publisher / Bridge (§4.4) as a
latest-wins mailbox.  Snapshots are numbered in production order;`produce`
overwrites the pending slot (coalescing), `consume` delivers the pending
snapshot if any. -/
structure Bridge where
  producedCount : Nat
  pending : Option Nat
  delivered : List Nat
deriving DecidableEq

/-- An event of the Bridge: a snapshot is produced, or the consumer takes the
pending snapshot. -/
inductive BridgeEvent where
  | produce
  | consume
deriving DecidableEq

/-- One Bridge transition. -/
def bridgeStep (b : Bridge) : BridgeEvent → Bridge
  | .produce => ⟨b.producedCount + 1, some b.producedCount, b.delivered⟩
  | .consume =>
    match b.pending with
    | some i => ⟨b.producedCount, none, b.delivered ++ [i]⟩
    | none => b

/-- The initial Bridge state. -/
def bridgeInit : Bridge := ⟨0, none, []⟩

/-- Run the Bridge over a sequence of produce/consume events. -/
def bridgeRun (evts : List BridgeEvent) : Bridge := evts.foldl bridgeStep bridgeInit

/-- Modelled from the spec: the Snapshot Source's permission tracking (§4.1) —
the last observed permission state, used to signal `PermissionDenied` once per
permission-state change rather than once per scan. -/
structure Scanner where
  lastPermission : Option Bool
deriving DecidableEq

/-- Modelled from the spec: one `scan()` call (§4.1).  When access is granted
the OS windows are returned; when denied the scan returns the empty sequence
and signals `PermissionDenied` only if the last observed state was not already
denied. -/
def scanStep (sc : Scanner) (granted : Bool) (os : List RawWindow) :
    Scanner × List RawWindow × Option Condition :=
  if granted then (⟨some true⟩, os, none)
  else (⟨some false⟩, [],
        if sc.lastPermission = some false then none else some .PermissionDenied)

/-- Run the Snapshot Source over a sequence of scans, each with the permission
state the OS reports and the windows it would return. -/
def scanRun (sc : Scanner) : List (Bool × List RawWindow) → List (List RawWindow × Option Condition)
  | [] => []
  | (g, os) :: rest => (scanStep sc g os).2 :: scanRun (scanStep sc g os).1 rest

/-- The permission state a scanner last observed (unknown counts as granted,
so the first denied scan signals). -/
def prevGranted (sc : Scanner) : Bool := sc.lastPermission.getD true

/-- Number of transitions into the denied state along a sequence of observed
permission states, starting from a previous state. -/
def deniedEdges : Bool → List Bool → Nat
  | _, [] => 0
  | prev, g :: gs => (if prev && !g then 1 else 0) + deniedEdges g gs

end Engine

/-! ## Helper lemmas about Python `strip` -/

theorem dropWhile_head_not (p : Char → Bool) :
    ∀ (l : List Char) (c : Char), (l.dropWhile p).head? = some c → p c = false := by
  intro l
  induction l with
  | nil => intro c h; simp [List.dropWhile] at h
  | cons a as ih =>
    intro c h
    rw [List.dropWhile_cons] at h
    split at h
    · exact ih c h
    · next hp =>
      simp only [List.head?_cons, Option.some.injEq] at h
      subst h
      exact Bool.eq_false_iff.mpr hp

theorem dropWhile_append_of_any (p : Char → Bool) :
    ∀ (l m : List Char), l.any (fun c => !p c) = true →
      (l ++ m).dropWhile p = l.dropWhile p ++ m := by
  intro l
  induction l with
  | nil => intro m h; simp at h
  | cons a as ih =>
    intro m h
    rw [List.cons_append, List.dropWhile_cons, List.dropWhile_cons]
    by_cases hp : p a
    · rw [if_pos hp, if_pos hp]
      apply ih
      simp [hp] at h
      simpa using h
    · rw [if_neg hp, if_neg hp, List.cons_append]

theorem any_dropWhile_of_any (p : Char → Bool) :
    ∀ l : List Char, l.any (fun c => !p c) = true →
      (l.dropWhile p).any (fun c => !p c) = true := by
  intro l
  induction l with
  | nil => intro h; simp at h
  | cons a as ih =>
    intro h
    rw [List.dropWhile_cons]
    by_cases hp : p a
    · rw [if_pos hp]
      apply ih
      simp [hp] at h
      simpa using h
    · rw [if_neg hp]
      simp [hp]

theorem rstrip_append (p : Char → Bool) (x m : List Char)
    (h : m.any (fun c => !p c) = true) :
    ((x ++ m).reverse.dropWhile p).reverse = x ++ (m.reverse.dropWhile p).reverse := by
  rw [List.reverse_append]
  rw [dropWhile_append_of_any p m.reverse x.reverse
    (by simpa [List.any_eq_true] using h)]
  rw [List.reverse_append, List.reverse_reverse]

theorem dropWhile_append_last (p : Char → Bool) (c : Char) (hc : p c = false) :
    ∀ l : List Char, ∃ u, (l ++ [c]).dropWhile p = u ++ [c] := by
  intro l
  induction l with
  | nil =>
    refine ⟨[], ?_⟩
    simp [List.dropWhile, hc]
  | cons a as ih =>
    rw [List.cons_append, List.dropWhile_cons]
    by_cases hp : p a
    · rw [if_pos hp]; exact ih
    · rw [if_neg hp]
      exact ⟨a :: as, by rw [List.cons_append]⟩

theorem stripL_append (hd bd : List Char)
    (hh : hd.any (fun c => !SetupProject.pyIsSpace c) = true)
    (hb : bd.any (fun c => !SetupProject.pyIsSpace c) = true) :
    SetupProject.stripL (hd ++ bd)
      = hd.dropWhile SetupProject.pyIsSpace ++
        (bd.takeWhile SetupProject.pyIsSpace ++ SetupProject.stripL bd) := by
  unfold SetupProject.stripL
  rw [dropWhile_append_of_any _ hd bd hh]
  rw [rstrip_append _ (hd.dropWhile SetupProject.pyIsSpace) bd hb]
  congr 1
  have h2 := rstrip_append SetupProject.pyIsSpace
    (bd.takeWhile SetupProject.pyIsSpace) (bd.dropWhile SetupProject.pyIsSpace)
    (any_dropWhile_of_any _ bd hb)
  rw [List.takeWhile_append_dropWhile] at h2
  exact h2

theorem written_split (h b : String)
    (hh : h.data.any (fun c => !SetupProject.pyIsSpace c) = true)
    (hb : b.data.any (fun c => !SetupProject.pyIsSpace c) = true) :
    (SetupProject.pyStrip (h ++ b) ++ "\n").data
      = (SetupProject.pyLStrip h).data ++
        (b.data.takeWhile SetupProject.pyIsSpace ++ (SetupProject.pyStrip b).data ++ ['\n']) := by
  show SetupProject.stripL (h.data ++ b.data) ++ ['\n'] = _
  rw [stripL_append _ _ hh hb]
  show (h.data.dropWhile SetupProject.pyIsSpace ++
    (b.data.takeWhile SetupProject.pyIsSpace ++ SetupProject.stripL b.data)) ++ ['\n'] = _
  simp only [List.append_assoc]
  rfl

theorem strip_newline_head (content : String)
    (hc : content.data.any (fun c => !SetupProject.pyIsSpace c) = true) :
    SetupProject.noLeadingWS (SetupProject.pyStrip content ++ "\n") := by
  intro ch hch
  have hm : (content.data.dropWhile SetupProject.pyIsSpace).any
      (fun c => !SetupProject.pyIsSpace c) = true :=
    any_dropWhile_of_any _ _ hc
  rcases hmc : content.data.dropWhile SetupProject.pyIsSpace with _ | ⟨c₀, t⟩
  · rw [hmc] at hm; simp at hm
  · have hc₀ : SetupProject.pyIsSpace c₀ = false := by
      apply dropWhile_head_not SetupProject.pyIsSpace content.data
      rw [hmc]; rfl
    obtain ⟨u, hu⟩ := dropWhile_append_last SetupProject.pyIsSpace c₀ hc₀ t.reverse
    have hdata : (SetupProject.pyStrip content ++ "\n").data
        = SetupProject.stripL content.data ++ ['\n'] := rfl
    rw [hdata] at hch
    unfold SetupProject.stripL at hch
    rw [hmc] at hch
    have hrev : (c₀ :: t).reverse = t.reverse ++ [c₀] := by simp
    rw [hrev, hu] at hch
    simp [List.reverse_append] at hch
    exact hch ▸ hc₀

theorem strip_newline_last (content : String) :
    SetupProject.endsWithOneNewline (SetupProject.pyStrip content ++ "\n") := by
  constructor
  · show ((SetupProject.stripL content.data ++ ['\n']).reverse).head? = some '\n'
    simp [List.reverse_append]
  · intro c hch
    have : ((SetupProject.stripL content.data ++ ['\n']).reverse).tail
        = (content.data.dropWhile SetupProject.pyIsSpace).reverse.dropWhile
            SetupProject.pyIsSpace := by
      simp [List.reverse_append, SetupProject.stripL]
    rw [show (SetupProject.pyStrip content ++ "\n").data
        = SetupProject.stripL content.data ++ ['\n'] from rfl] at hch
    rw [this] at hch
    have hcs := dropWhile_head_not SetupProject.pyIsSpace _ _ hch
    intro hEq
    rw [hEq] at hcs
    simp [SetupProject.pyIsSpace] at hcs

/-! ## Claim C8 -/

/-- C8 (amended): for every filesystem state, path and content string,
`create_file(path, content)` appends a file whose contents equal
`content.strip() + "\n"`; that text ends with exactly one trailing newline;
whenever `content` contains at least one non-whitespace character the written
text additionally has no leading whitespace; and the parent directory of
`path` is recorded as created whenever it is nonempty. -/
theorem C8_create_file_strips (fs : SetupProject.FileSystem) (path content : String) :
    (SetupProject.create_file fs path content).files
        = fs.files ++ [(path, SetupProject.pyStrip content ++ "\n")] ∧
    SetupProject.endsWithOneNewline (SetupProject.pyStrip content ++ "\n") ∧
    (content.data.any (fun c => !SetupProject.pyIsSpace c) = true →
      SetupProject.noLeadingWS (SetupProject.pyStrip content ++ "\n")) ∧
    (SetupProject.dirname path ≠ "" →
      SetupProject.dirname path ∈ (SetupProject.create_file fs path content).dirs) := by
  refine ⟨rfl, strip_newline_last content, strip_newline_head content, ?_⟩
  intro hne
  show SetupProject.dirname path ∈
    (if SetupProject.dirname path ≠ "" ∧ SetupProject.dirname path ∉ fs.dirs
     then SetupProject.dirname path :: fs.dirs else fs.dirs)
  by_cases hmem : SetupProject.dirname path ∈ fs.dirs
  · rw [if_neg (by simp [hmem])]
    exact hmem
  · rw [if_pos ⟨hne, hmem⟩]
    exact List.mem_cons_self _ _

/-- C8 counterexample: for the whitespace-only content `" "` the written text
is `"\n"`, whose first character is whitespace — so the claim's "the written
text has no leading whitespace", quantified over every content string, fails. -/
theorem C8_counterexample :
    (SetupProject.create_file SetupProject.initFS "note.txt" " ").files
        = [("note.txt", "\n")] ∧
    ¬ SetupProject.noLeadingWS "\n" := by
  constructor
  · decide
  · intro hnl
    exact absurd (hnl '\n' rfl) (by decide)

/-- C8 witness: the amended theorem applied at `fs = initFS`,
`path = "a/b.txt"`, `content = " hello "`. -/
theorem C8_witness :
    (" hello ".data.any (fun c => !SetupProject.pyIsSpace c) = true) ∧
    SetupProject.noLeadingWS (SetupProject.pyStrip " hello " ++ "\n") ∧
    (SetupProject.dirname "a/b.txt" ≠ "") ∧
    SetupProject.dirname "a/b.txt"
      ∈ (SetupProject.create_file SetupProject.initFS "a/b.txt" " hello ").dirs :=
  ⟨by decide,
   (C8_create_file_strips SetupProject.initFS "a/b.txt" " hello ").2.2.1 (by decide),
   by decide,
   (C8_create_file_strips SetupProject.initFS "a/b.txt" " hello ").2.2.2 (by decide)⟩

/-! ## Helper lemmas about `main` -/

theorem runConfig_files (cfg : List SetupProject.ConfigEntry) :
    ∀ fs : SetupProject.FileSystem,
      (SetupProject.runConfig fs cfg).files
        = fs.files ++ cfg.map (fun e => (e.path, SetupProject.writtenContent e)) := by
  induction cfg with
  | nil => intro fs; simp [SetupProject.runConfig]
  | cons e rest ih =>
    intro fs
    have hstep : SetupProject.runConfig fs (e :: rest)
        = SetupProject.runConfig
            (if SetupProject.strEndsWith e.filename ".xcstrings" = true
             then SetupProject.create_file fs e.path e.content
             else SetupProject.create_file fs e.path
               (SetupProject.generate_header e.filename e.imports e.intent ++
                (if e.content ≠ "" then e.content
                 else SetupProject.fallbackBody e.filename)))
            rest := rfl
    by_cases hxc : SetupProject.strEndsWith e.filename ".xcstrings" = true
    · have hw : SetupProject.writtenContent e = SetupProject.pyStrip e.content ++ "\n" := by
        unfold SetupProject.writtenContent
        rw [if_pos hxc]
      rw [hstep, if_pos hxc, ih, List.map_cons, hw]
      show (fs.files ++ [(e.path, SetupProject.pyStrip e.content ++ "\n")]) ++ _ = _
      simp
    · have hw : SetupProject.writtenContent e
          = SetupProject.pyStrip (SetupProject.generate_header e.filename e.imports e.intent ++
              (if e.content ≠ "" then e.content
               else SetupProject.fallbackBody e.filename)) ++ "\n" := by
        unfold SetupProject.writtenContent
        rw [if_neg hxc]
      rw [hstep, if_neg hxc, ih, List.map_cons, hw]
      show (fs.files ++ [(e.path, _)]) ++ _ = _
      simp

theorem mainFiles_eq :
    SetupProject.mainFiles
      = SetupProject.files_config.map (fun e => (e.path, SetupProject.writtenContent e)) := by
  show (SetupProject.runConfig SetupProject.initFS SetupProject.files_config).files = _
  rw [runConfig_files]
  exact List.nil_append _

theorem runConfig_no_fallback (cfg : List SetupProject.ConfigEntry)
    (h : ∀ e ∈ cfg, SetupProject.strEndsWith e.filename ".xcstrings" = true ∨ e.content ≠ "") :
    ∀ fs, SetupProject.runConfig fs cfg = SetupProject.runConfigNoFallback fs cfg := by
  induction cfg with
  | nil => intro fs; rfl
  | cons e rest ih =>
    intro fs
    have hrest : ∀ x ∈ rest, SetupProject.strEndsWith x.filename ".xcstrings" = true ∨
        x.content ≠ "" := fun x hx => h x (List.mem_cons_of_mem e hx)
    have hstep : SetupProject.runConfig fs (e :: rest)
        = SetupProject.runConfig
            (if SetupProject.strEndsWith e.filename ".xcstrings" = true
             then SetupProject.create_file fs e.path e.content
             else SetupProject.create_file fs e.path
               (SetupProject.generate_header e.filename e.imports e.intent ++
                (if e.content ≠ "" then e.content
                 else SetupProject.fallbackBody e.filename)))
            rest := rfl
    have hstep' : SetupProject.runConfigNoFallback fs (e :: rest)
        = SetupProject.runConfigNoFallback
            (if SetupProject.strEndsWith e.filename ".xcstrings" = true
             then SetupProject.create_file fs e.path e.content
             else SetupProject.create_file fs e.path
               (SetupProject.generate_header e.filename e.imports e.intent ++ e.content))
            rest := rfl
    rw [hstep, hstep']
    by_cases hxc : SetupProject.strEndsWith e.filename ".xcstrings" = true
    · rw [if_pos hxc, if_pos hxc]
      exact ih hrest _
    · have hc : e.content ≠ "" := by
        rcases h e (List.mem_cons_self e rest) with h1 | h1
        · exact absurd h1 hxc
        · exact h1
      rw [if_neg hxc, if_neg hxc, if_pos hc]
      exact ih hrest _

theorem lookup_map_of_mem {cfg : List SetupProject.ConfigEntry} {e : SetupProject.ConfigEntry}
    (he : e ∈ cfg) (hnd : (cfg.map SetupProject.ConfigEntry.path).Nodup) :
    SetupProject.lookupFile e.path
        (cfg.map (fun x => (x.path, SetupProject.writtenContent x)))
      = some (SetupProject.writtenContent e) := by
  induction cfg with
  | nil => cases he
  | cons a rest ih =>
    rw [List.map_cons, List.nodup_cons] at hnd
    rcases List.mem_cons.mp he with rfl | hmem
    · show (if e.path = e.path then _ else _) = _
      rw [if_pos rfl]
    · have hne : a.path ≠ e.path := by
        intro hEq
        exact hnd.1 (hEq ▸ List.mem_map_of_mem SetupProject.ConfigEntry.path hmem)
      show (if a.path = e.path then _ else _) = _
      rw [if_neg hne]
      exact ih hmem hnd.2

theorem files_config_paths_nodup :
    (SetupProject.files_config.map SetupProject.ConfigEntry.path).Nodup := by decide

/-! ## Claim C9 -/

/-- C9 counterexample: `files_config` lists 11 files, not 10 — `main()`
creates 11 files, so the claim's count of "exactly the 10 files listed in
files_config" is false. -/
theorem C9_counterexample :
    SetupProject.mainFiles.length = 11 ∧ SetupProject.mainFiles.length ≠ 10 := by
  constructor
  · rw [mainFiles_eq]
    rfl
  · rw [mainFiles_eq]
    decide

/-- C9 (amended): running `main()` creates exactly the 11 files listed in
`files_config`, every one under the `DockSens_Project_Structure/` root; the
single `.xcstrings` file is written with its raw JSON content (stripped,
plus the final newline `create_file` appends) and no Swift header, while every
other generated file's content is the `create_file`-stripped concatenation of
the header from `generate_header` and the entry's body: it begins with the
header text (after the leading blank line is stripped), names that file, and
contains one `import L` line, in order, for each library `L` listed by the
entry. -/
theorem C9_main_output :
    SetupProject.mainFiles.length = 11 ∧
    SetupProject.mainFiles.map Prod.fst
      = SetupProject.files_config.map SetupProject.ConfigEntry.path ∧
    (∀ pr ∈ SetupProject.mainFiles,
       SetupProject.strStartsWith pr.1 "DockSens_Project_Structure/" = true) ∧
    SetupProject.files_config.countP
      (fun e => SetupProject.strEndsWith e.filename ".xcstrings") = 1 ∧
    SetupProject.lookupFile "DockSens_Project_Structure/Resources/Localizable.xcstrings"
        SetupProject.mainFiles
      = some (SetupProject.pyStrip SetupProject.xcstrings_content ++ "\n") ∧
    SetupProject.containsSubstr
      (SetupProject.pyStrip SetupProject.xcstrings_content ++ "\n")
      "Created by DockSens Setup Script." = false ∧
    (∀ e ∈ SetupProject.files_config,
      SetupProject.strEndsWith e.filename ".xcstrings" = true ∨
      (SetupProject.lookupFile e.path SetupProject.mainFiles
          = some (SetupProject.pyStrip
              (SetupProject.generate_header e.filename e.imports e.intent ++ e.content) ++ "\n") ∧
       (∃ t, (SetupProject.pyStrip
              (SetupProject.generate_header e.filename e.imports e.intent ++ e.content)
              ++ "\n").data
            = (SetupProject.pyLStrip
                (SetupProject.generate_header e.filename e.imports e.intent)).data ++ t) ∧
       SetupProject.containsSubstr
         (SetupProject.pyStrip
           (SetupProject.generate_header e.filename e.imports e.intent ++ e.content) ++ "\n")
         ("//  " ++ e.filename) = true ∧
       SetupProject.containsInOrder
         (SetupProject.pyStrip
           (SetupProject.generate_header e.filename e.imports e.intent ++ e.content)
           ++ "\n").data
         (e.imports.map (fun lib => "import " ++ lib)) = true)) := by
  have hmapfst : SetupProject.mainFiles.map Prod.fst
      = SetupProject.files_config.map SetupProject.ConfigEntry.path := by
    rw [mainFiles_eq, List.map_map]
    rfl
  refine ⟨?_, hmapfst, ?_, ?_, ?_, ?_, ?_⟩
  · rw [mainFiles_eq]
    rfl
  · intro pr hpr
    have h1 : pr.1 ∈ SetupProject.files_config.map SetupProject.ConfigEntry.path := by
      rw [← hmapfst]
      exact List.mem_map_of_mem Prod.fst hpr
    exact (by decide :
      ∀ p ∈ SetupProject.files_config.map SetupProject.ConfigEntry.path,
        SetupProject.strStartsWith p "DockSens_Project_Structure/" = true) pr.1 h1
  · decide
  · rw [mainFiles_eq]
    have he : SetupProject.files_config.get ⟨0, by decide⟩ ∈ SetupProject.files_config :=
      List.get_mem SetupProject.files_config 0 (by decide)
    exact lookup_map_of_mem he files_config_paths_nodup
  · rfl
  · intro e he
    have hlk := lookup_map_of_mem he files_config_paths_nodup
    simp only [SetupProject.files_config, List.mem_cons, List.not_mem_nil, or_false] at he
    rcases he with rfl | rfl | rfl | rfl | rfl | rfl | rfl | rfl | rfl | rfl | rfl
    · exact Or.inl rfl
    all_goals
      refine Or.inr ⟨by rw [mainFiles_eq]; exact hlk,
        ⟨_, written_split _ _ (by rfl) (by rfl)⟩, by rfl, by rfl⟩

/-! ## Claim C10 -/

theorem written_contains_body (h b : String)
    (hh : h.data.any (fun c => !SetupProject.pyIsSpace c) = true)
    (hb : b.data.any (fun c => !SetupProject.pyIsSpace c) = true) :
    ∃ u v, (SetupProject.pyStrip (h ++ b) ++ "\n").data
        = u ++ (SetupProject.pyStrip b).data ++ v := by
  refine ⟨(SetupProject.pyLStrip h).data ++ b.data.takeWhile SetupProject.pyIsSpace, ['\n'], ?_⟩
  rw [written_split h b hh hb]
  simp [List.append_assoc]

/-- C10: the placeholder branch of `main` (`// 代码实现...`) is unreachable:
every non-`.xcstrings` entry of `files_config` has a non-empty content string,
`main` on the empty filesystem equals the same loop with the placeholder
branch removed, and every generated Swift file contains its configured body
(stripped of surrounding whitespace) as a substring. -/
theorem C10_fallback_unreachable :
    (∀ e ∈ SetupProject.files_config,
      SetupProject.strEndsWith e.filename ".xcstrings" = true ∨ e.content ≠ "") ∧
    SetupProject.main SetupProject.initFS
      = SetupProject.runConfigNoFallback SetupProject.initFS SetupProject.files_config ∧
    (∀ e ∈ SetupProject.files_config,
      SetupProject.strEndsWith e.filename ".xcstrings" = true ∨
      (SetupProject.lookupFile e.path SetupProject.mainFiles
          = some (SetupProject.pyStrip
              (SetupProject.generate_header e.filename e.imports e.intent ++ e.content) ++ "\n") ∧
       ∃ u v, (SetupProject.pyStrip
              (SetupProject.generate_header e.filename e.imports e.intent ++ e.content)
              ++ "\n").data
            = u ++ (SetupProject.pyStrip e.content).data ++ v)) := by
  have hnonempty : ∀ e ∈ SetupProject.files_config,
      SetupProject.strEndsWith e.filename ".xcstrings" = true ∨ e.content ≠ "" := by
    intro e he
    simp only [SetupProject.files_config, List.mem_cons, List.not_mem_nil, or_false] at he
    rcases he with rfl | rfl | rfl | rfl | rfl | rfl | rfl | rfl | rfl | rfl | rfl
    · exact Or.inl rfl
    all_goals exact Or.inr (by decide)
  refine ⟨hnonempty, runConfig_no_fallback SetupProject.files_config hnonempty _, ?_⟩
  intro e he
  have hlk := lookup_map_of_mem he files_config_paths_nodup
  simp only [SetupProject.files_config, List.mem_cons, List.not_mem_nil, or_false] at he
  rcases he with rfl | rfl | rfl | rfl | rfl | rfl | rfl | rfl | rfl | rfl | rfl
  · exact Or.inl rfl
  all_goals
    exact Or.inr ⟨by rw [mainFiles_eq]; exact hlk,
      written_contains_body _ _ (by rfl) (by rfl)⟩

/-! ## Claim C1 -/

/-- C1: an activation request made while the current RegistrySnapshot is
empty is refused — the state machine stays `Idle` (no switcher session is
created), the `NoCandidates` condition is signalled, and no side effect is
emitted — for either requested direction. -/
theorem C1_empty_activation_refused (d : Int) :
    Engine.switcherStep Engine.SwitcherState.Idle [] (Engine.SwitcherEvent.activate d)
      = (Engine.SwitcherState.Idle, some Engine.Condition.NoCandidates, none) := rfl

/-! ## Claim C5 -/

/-- C5: for every Active session with at least one candidate and every step
direction, stepping always succeeds — it stays `Active` with the same
candidates, signals nothing, and sets
`cursorIndex = (cursorIndex + direction) mod count(candidates)`, which is a
valid index. -/
theorem C5_step_wraps (s : Engine.SwitcherSession) (d : Int)
    (current : List Engine.WindowRecord) (h : 0 < s.candidates.length) :
    Engine.switcherStep (Engine.SwitcherState.Active s) current (Engine.SwitcherEvent.step d)
      = (Engine.SwitcherState.Active
          ⟨s.candidates, (((s.cursorIndex : Int) + d) % (s.candidates.length : Int)).toNat⟩,
         none, none) ∧
    (((s.cursorIndex : Int) + d) % (s.candidates.length : Int)).toNat
      < s.candidates.length := by
  constructor
  · rfl
  · have hne : (s.candidates.length : Int) ≠ 0 := by
      exact_mod_cast Nat.pos_iff_ne_zero.mp h
    have h1 := Int.emod_nonneg ((s.cursorIndex : Int) + d) hne
    have h2 := Int.emod_lt_of_pos ((s.cursorIndex : Int) + d)
      (by exact_mod_cast h : (0 : Int) < (s.candidates.length : Int))
    omega

/-- C5 witness: a session with 3 candidates and `cursorIndex = 2`; `step(+1)`
wraps the cursor to 0. -/
theorem C5_witness :
    0 < (Engine.SwitcherSession.mk
          [⟨0, "w0", "A", (0, 0, 0, 0), 0⟩, ⟨1, "w1", "B", (0, 0, 0, 0), 1⟩,
           ⟨2, "w2", "C", (0, 0, 0, 0), 2⟩] 2).candidates.length ∧
    (Engine.switcherStep
        (Engine.SwitcherState.Active (Engine.SwitcherSession.mk
          [⟨0, "w0", "A", (0, 0, 0, 0), 0⟩, ⟨1, "w1", "B", (0, 0, 0, 0), 1⟩,
           ⟨2, "w2", "C", (0, 0, 0, 0), 2⟩] 2)) [] (Engine.SwitcherEvent.step 1)
        = (Engine.SwitcherState.Active
            ⟨(Engine.SwitcherSession.mk
                [⟨0, "w0", "A", (0, 0, 0, 0), 0⟩, ⟨1, "w1", "B", (0, 0, 0, 0), 1⟩,
                 ⟨2, "w2", "C", (0, 0, 0, 0), 2⟩] 2).candidates,
             ((((2 : Nat) : Int) + 1) % ((3 : Nat) : Int)).toNat⟩, none, none) ∧
      ((((2 : Nat) : Int) + 1) % ((3 : Nat) : Int)).toNat < 3) ∧
    ((((2 : Nat) : Int) + 1) % ((3 : Nat) : Int)).toNat = 0 :=
  ⟨by decide,
   C5_step_wraps (Engine.SwitcherSession.mk
      [⟨0, "w0", "A", (0, 0, 0, 0), 0⟩, ⟨1, "w1", "B", (0, 0, 0, 0), 1⟩,
       ⟨2, "w2", "C", (0, 0, 0, 0), 2⟩] 2) 1 [] (by decide),
   by decide⟩

/-! ## Claim C7 -/

theorem bridge_inv (evts : List Engine.BridgeEvent) :
    ∀ b : Engine.Bridge,
      List.Pairwise (· < ·) b.delivered →
      (∀ j ∈ b.delivered, j < b.producedCount) →
      (∀ i, b.pending = some i → (∀ j ∈ b.delivered, j < i) ∧ i < b.producedCount) →
      (List.Pairwise (· < ·) (evts.foldl Engine.bridgeStep b).delivered ∧
       ∀ j ∈ (evts.foldl Engine.bridgeStep b).delivered,
         j < (evts.foldl Engine.bridgeStep b).producedCount) := by
  induction evts with
  | nil => intro b h1 h2 _; exact ⟨h1, h2⟩
  | cons ev rest ih =>
    intro b h1 h2 h3
    rw [List.foldl_cons]
    cases ev with
    | produce =>
      apply ih
      · exact h1
      · intro j hj
        exact Nat.lt_succ_of_lt (h2 j hj)
      · intro i hi
        have hi' : i = b.producedCount := by
          simpa [Engine.bridgeStep] using hi.symm
        subst hi'
        exact ⟨fun j hj => h2 j hj, Nat.lt_succ_self _⟩
    | consume =>
      cases hp : b.pending with
      | some i =>
        have hstep : Engine.bridgeStep b Engine.BridgeEvent.consume
            = ⟨b.producedCount, none, b.delivered ++ [i]⟩ := by
          simp [Engine.bridgeStep, hp]
        rw [hstep]
        rcases h3 i hp with ⟨hlt, hcnt⟩
        apply ih
        · exact List.pairwise_append.mpr
            ⟨h1, List.pairwise_singleton _ _, fun a ha j hj => by
              simp at hj; subst hj; exact hlt a ha⟩
        · intro j hj
          rcases List.mem_append.mp hj with hj | hj
          · exact h2 j hj
          · simp at hj; subst hj; exact hcnt
        · intro i' hi'
          cases hi'
      | none =>
        have hstep : Engine.bridgeStep b Engine.BridgeEvent.consume = b := by
          simp [Engine.bridgeStep, hp]
        rw [hstep]
        exact ih b h1 h2 h3

/-- C7: the Update Publisher never delivers a snapshot out of order: for every
event sequence, the delivered production indices are strictly increasing (an
older snapshot is never delivered after a newer one) and every delivered index
was produced; and in the concrete run where S1, S2, S3 are produced before the
consumer takes again, the consumer observes S1 then S3, skipping S2. -/
theorem C7_bridge_ordered :
    (∀ evts : List Engine.BridgeEvent,
       List.Pairwise (· < ·) (Engine.bridgeRun evts).delivered ∧
       ∀ j ∈ (Engine.bridgeRun evts).delivered, j < (Engine.bridgeRun evts).producedCount) ∧
    Engine.bridgeRun
        [Engine.BridgeEvent.produce, Engine.BridgeEvent.consume, Engine.BridgeEvent.produce,
         Engine.BridgeEvent.produce, Engine.BridgeEvent.consume]
      = ⟨3, none, [0, 2]⟩ := by
  constructor
  · intro evts
    exact bridge_inv evts Engine.bridgeInit (by simp [Engine.bridgeInit])
      (by simp [Engine.bridgeInit]) (by simp [Engine.bridgeInit])
  · rfl

/-! ## Claim C2 -/

theorem scan_denied_empty (inputs : List (Bool × List Engine.RawWindow)) :
    ∀ sc, List.Forall₂ (fun i o => i.1 = false → o.1 = ([] : List Engine.RawWindow))
        inputs (Engine.scanRun sc inputs) := by
  induction inputs with
  | nil => intro sc; exact List.Forall₂.nil
  | cons p rest ih =>
    intro sc
    obtain ⟨g, os⟩ := p
    refine List.Forall₂.cons ?_ (ih _)
    intro hg
    cases g with
    | true => cases hg
    | false => rfl

theorem scan_signals_count (inputs : List (Bool × List Engine.RawWindow)) :
    ∀ sc : Engine.Scanner,
      (Engine.scanRun sc inputs).countP
          (fun o => decide (o.2 = some Engine.Condition.PermissionDenied))
        = Engine.deniedEdges (Engine.prevGranted sc) (inputs.map Prod.fst) := by
  induction inputs with
  | nil => intro sc; rfl
  | cons p rest ih =>
    intro sc
    obtain ⟨g, os⟩ := p
    cases g with
    | true =>
      simp [Engine.scanRun, Engine.scanStep, List.countP_cons, Engine.deniedEdges,
        ih, Engine.prevGranted]
    | false =>
      obtain ⟨lp⟩ := sc
      rcases lp with _ | b
      · simp [Engine.scanRun, Engine.scanStep, List.countP_cons, Engine.deniedEdges,
          ih, Engine.prevGranted]
        omega
      · cases b with
        | true =>
          simp [Engine.scanRun, Engine.scanStep, List.countP_cons, Engine.deniedEdges,
            ih, Engine.prevGranted]
          omega
        | false =>
          simp [Engine.scanRun, Engine.scanStep, List.countP_cons, Engine.deniedEdges,
            ih, Engine.prevGranted]

/-- C2: when the OS denies accessibility access, every scan in a run returns
the empty sequence, and the number of `PermissionDenied` signals in the run
equals the number of transitions into the denied state (one per
permission-state change, not one per scan). -/
theorem C2_permission_denied (inputs : List (Bool × List Engine.RawWindow)) :
    List.Forall₂ (fun i o => i.1 = false → o.1 = ([] : List Engine.RawWindow))
        inputs (Engine.scanRun ⟨none⟩ inputs) ∧
    (Engine.scanRun ⟨none⟩ inputs).countP
        (fun o => decide (o.2 = some Engine.Condition.PermissionDenied))
      = Engine.deniedEdges true (inputs.map Prod.fst) :=
  ⟨scan_denied_empty inputs ⟨none⟩, scan_signals_count inputs ⟨none⟩⟩

/-! ## Reconciliation lemmas -/

theorem reconcileList_forall₂ (old : List Engine.KeyedRecord) :
    ∀ (ws : List Engine.RawWindow) (next : Nat),
      List.Forall₂ (fun e w => e = Engine.mkEntry w e.record.id)
        (Engine.reconcileList old next ws).1 ws := by
  intro ws
  induction ws with
  | nil => intro next; exact List.Forall₂.nil
  | cons w ws ih =>
    intro next
    cases hf : Engine.findKey old w.ownerName w.handle with
    | some r =>
      have hstep : (Engine.reconcileList old next (w :: ws)).1
          = Engine.mkEntry w r.id :: (Engine.reconcileList old next ws).1 := by
        simp only [Engine.reconcileList, hf]
      rw [hstep]
      exact List.Forall₂.cons rfl (ih next)
    | none =>
      have hstep : (Engine.reconcileList old next (w :: ws)).1
          = Engine.mkEntry w next :: (Engine.reconcileList old (next + 1) ws).1 := by
        simp only [Engine.reconcileList, hf]
      rw [hstep]
      exact List.Forall₂.cons rfl (ih (next + 1))

theorem findKey_append_of_none (o : String) (hdl : Nat) :
    ∀ (pre l : List Engine.KeyedRecord),
      (∀ x ∈ pre, ¬(x.owner = o ∧ x.handle = hdl)) →
      Engine.findKey (pre ++ l) o hdl = Engine.findKey l o hdl := by
  intro pre
  induction pre with
  | nil => intro l _; rfl
  | cons a pre ih =>
    intro l h
    have ha := h a (List.mem_cons_self a pre)
    show (if a.owner = o ∧ a.handle = hdl then some a.record else _) = _
    rw [if_neg ha]
    exact ih l (fun x hx => h x (List.mem_cons_of_mem a hx))

theorem reconcileList_stable :
    ∀ {es : List Engine.KeyedRecord} {ws : List Engine.RawWindow},
      List.Forall₂ (fun e w => e = Engine.mkEntry w e.record.id) es ws →
      List.Pairwise (fun a b => Engine.keyOf a ≠ Engine.keyOf b) ws →
      ∀ (pre : List Engine.KeyedRecord) (m : Nat),
        (∀ x ∈ pre, ∀ u ∈ ws, ¬(x.owner = u.ownerName ∧ x.handle = u.handle)) →
        Engine.reconcileList (pre ++ es) m ws = (es, m) := by
  intro es ws hall
  induction hall with
  | nil => intro _ pre m _; rfl
  | @cons e w es' ws' h₁ h₂ ih =>
    intro hpw pre m hpre
    obtain ⟨hw_ws', hpw'⟩ := List.pairwise_cons.mp hpw
    have hkey : Engine.findKey (pre ++ e :: es') w.ownerName w.handle = some e.record := by
      rw [findKey_append_of_none _ _ pre _
        (fun x hx => hpre x hx w (List.mem_cons_self _ _))]
      show (if e.owner = w.ownerName ∧ e.handle = w.handle then some e.record else _) = _
      rw [if_pos ?_]
      constructor
      · rw [h₁]; rfl
      · rw [h₁]; rfl
    have hstep : Engine.reconcileList (pre ++ e :: es') m (w :: ws')
        = (Engine.mkEntry w e.record.id ::
            (Engine.reconcileList (pre ++ e :: es') m ws').1,
           (Engine.reconcileList (pre ++ e :: es') m ws').2) := by
      simp only [Engine.reconcileList, hkey]
    rw [hstep]
    have hrec : Engine.reconcileList (pre ++ e :: es') m ws' = (es', m) := by
      have hsplit : pre ++ e :: es' = (pre ++ [e]) ++ es' := by simp
      rw [hsplit]
      apply ih hpw' (pre ++ [e]) m
      intro x hx u hu
      rcases List.mem_append.mp hx with hx | hx
      · exact hpre x hx u (List.mem_cons_of_mem _ hu)
      · simp only [List.mem_singleton] at hx
        subst hx
        rintro ⟨ho, hh⟩
        apply hw_ws' u hu
        show (w.ownerName, w.handle) = (u.ownerName, u.handle)
        rw [← ho, ← hh, h₁]
        rfl
    rw [hrec, ← h₁]

/-! ## Claim C3 -/

/-- C3 (with the §3 well-formedness of a scan — distinct stable keys — as
hypothesis): reconciliation is idempotent: feeding the same raw scan twice
produces snapshots equal in record content and ordering. -/
theorem C3_reconcile_idempotent (reg : Engine.Registry) (S : List Engine.RawWindow)
    (h : (S.map Engine.keyOf).Nodup) :
    Engine.snapshot (Engine.reconcile (Engine.reconcile reg S) S)
      = Engine.snapshot (Engine.reconcile reg S) := by
  have hperm : List.Perm (Engine.sortScan S) S := List.perm_insertionSort _ S
  have hnd : ((Engine.sortScan S).map Engine.keyOf).Nodup :=
    ((hperm.map Engine.keyOf).nodup_iff).mpr h
  have hpw : List.Pairwise (fun a b => Engine.keyOf a ≠ Engine.keyOf b) (Engine.sortScan S) :=
    List.pairwise_map.mp hnd
  have hall := reconcileList_forall₂ reg.entries (Engine.sortScan S) reg.nextId
  have hstable := reconcileList_stable hall hpw []
    (Engine.reconcile reg S).nextId (by intro x hx; cases hx)
  rw [List.nil_append] at hstable
  exact congrArg (fun l => l.map Engine.KeyedRecord.record) (congrArg Prod.fst hstable)

/-- C3 witness: a two-window scan with distinct keys applied twice to the
empty registry. -/
theorem C3_witness :
    (([⟨"Mail", 7, "Inbox", (0, 0, 0, 0), 1⟩,
       ⟨"Safari", 3, "Tab", (0, 0, 0, 0), 0⟩] :
        List Engine.RawWindow).map Engine.keyOf).Nodup ∧
    Engine.snapshot (Engine.reconcile
        (Engine.reconcile ⟨[], 0⟩
          [⟨"Mail", 7, "Inbox", (0, 0, 0, 0), 1⟩, ⟨"Safari", 3, "Tab", (0, 0, 0, 0), 0⟩])
        [⟨"Mail", 7, "Inbox", (0, 0, 0, 0), 1⟩, ⟨"Safari", 3, "Tab", (0, 0, 0, 0), 0⟩])
      = Engine.snapshot (Engine.reconcile ⟨[], 0⟩
          [⟨"Mail", 7, "Inbox", (0, 0, 0, 0), 1⟩, ⟨"Safari", 3, "Tab", (0, 0, 0, 0), 0⟩]) :=
  ⟨by decide,
   C3_reconcile_idempotent ⟨[], 0⟩
     [⟨"Mail", 7, "Inbox", (0, 0, 0, 0), 1⟩, ⟨"Safari", 3, "Tab", (0, 0, 0, 0), 0⟩]
     (by decide)⟩

/-! ## Claim C4 -/

theorem findKey_reconcileList (old : List Engine.KeyedRecord) (o : String) (hdl : Nat) :
    ∀ (ws : List Engine.RawWindow) (next : Nat),
      (∃ w ∈ ws, w.ownerName = o ∧ w.handle = hdl) →
      ∃ r', Engine.findKey (Engine.reconcileList old next ws).1 o hdl = some r' ∧
        ∀ r, Engine.findKey old o hdl = some r → r'.id = r.id := by
  intro ws
  induction ws with
  | nil =>
    intro next h
    rcases h with ⟨w, hw, _⟩
    cases hw
  | cons w ws ih =>
    intro next hex
    by_cases hw : w.ownerName = o ∧ w.handle = hdl
    · cases hf : Engine.findKey old w.ownerName w.handle with
      | some r =>
        refine ⟨Engine.mkRecord w r.id, ?_, ?_⟩
        · have hstep : (Engine.reconcileList old next (w :: ws)).1
              = Engine.mkEntry w r.id :: (Engine.reconcileList old next ws).1 := by
            simp only [Engine.reconcileList, hf]
          rw [hstep]
          show (if w.ownerName = o ∧ w.handle = hdl
                then some (Engine.mkRecord w r.id) else _) = _
          rw [if_pos hw]
        · intro r₀ hr₀
          rw [← hw.1, ← hw.2, hf] at hr₀
          cases hr₀
          rfl
      | none =>
        refine ⟨Engine.mkRecord w next, ?_, ?_⟩
        · have hstep : (Engine.reconcileList old next (w :: ws)).1
              = Engine.mkEntry w next :: (Engine.reconcileList old (next + 1) ws).1 := by
            simp only [Engine.reconcileList, hf]
          rw [hstep]
          show (if w.ownerName = o ∧ w.handle = hdl
                then some (Engine.mkRecord w next) else _) = _
          rw [if_pos hw]
        · intro r₀ hr₀
          rw [← hw.1, ← hw.2, hf] at hr₀
          cases hr₀
    · have hex' : ∃ u ∈ ws, u.ownerName = o ∧ u.handle = hdl := by
        rcases hex with ⟨u, hu, hup⟩
        rcases List.mem_cons.mp hu with rfl | hu'
        · exact absurd hup hw
        · exact ⟨u, hu', hup⟩
      cases hf : Engine.findKey old w.ownerName w.handle with
      | some r =>
        obtain ⟨r', hfind, hid⟩ := ih next hex'
        refine ⟨r', ?_, hid⟩
        have hstep : (Engine.reconcileList old next (w :: ws)).1
            = Engine.mkEntry w r.id :: (Engine.reconcileList old next ws).1 := by
          simp only [Engine.reconcileList, hf]
        rw [hstep]
        show (if w.ownerName = o ∧ w.handle = hdl then _ else
          Engine.findKey (Engine.reconcileList old next ws).1 o hdl) = _
        rw [if_neg hw]
        exact hfind
      | none =>
        obtain ⟨r', hfind, hid⟩ := ih (next + 1) hex'
        refine ⟨r', ?_, hid⟩
        have hstep : (Engine.reconcileList old next (w :: ws)).1
            = Engine.mkEntry w next :: (Engine.reconcileList old (next + 1) ws).1 := by
          simp only [Engine.reconcileList, hf]
        rw [hstep]
        show (if w.ownerName = o ∧ w.handle = hdl then _ else
          Engine.findKey (Engine.reconcileList old (next + 1) ws).1 o hdl) = _
        rw [if_neg hw]
        exact hfind

/-- C4: identity is stable across consecutive scans: whenever a window with
the stable key (owner `o`, handle `hdl`) appears in two consecutive scans —
with no constraint on the titles, which may change — the registry record kept
for that key has the same `id` after both reconciliations; matching is by the
stable key, never by title. -/
theorem C4_identity_stable (reg : Engine.Registry) (S₁ S₂ : List Engine.RawWindow)
    (o : String) (hdl : Nat)
    (h₁ : ∃ w ∈ S₁, w.ownerName = o ∧ w.handle = hdl)
    (h₂ : ∃ w ∈ S₂, w.ownerName = o ∧ w.handle = hdl) :
    ∃ r₁ r₂, Engine.findKey (Engine.reconcile reg S₁).entries o hdl = some r₁ ∧
      Engine.findKey (Engine.reconcile (Engine.reconcile reg S₁) S₂).entries o hdl
        = some r₂ ∧
      r₂.id = r₁.id := by
  have hs₁ : ∃ w ∈ Engine.sortScan S₁, w.ownerName = o ∧ w.handle = hdl := by
    rcases h₁ with ⟨w, hw, hp⟩
    exact ⟨w, (List.perm_insertionSort Engine.zle S₁).mem_iff.mpr hw, hp⟩
  have hs₂ : ∃ w ∈ Engine.sortScan S₂, w.ownerName = o ∧ w.handle = hdl := by
    rcases h₂ with ⟨w, hw, hp⟩
    exact ⟨w, (List.perm_insertionSort Engine.zle S₂).mem_iff.mpr hw, hp⟩
  obtain ⟨r₁, hf₁, _⟩ :=
    findKey_reconcileList reg.entries o hdl (Engine.sortScan S₁) reg.nextId hs₁
  obtain ⟨r₂, hf₂, hid₂⟩ :=
    findKey_reconcileList (Engine.reconcile reg S₁).entries o hdl
      (Engine.sortScan S₂) (Engine.reconcile reg S₁).nextId hs₂
  exact ⟨r₁, r₂, hf₁, hf₂, hid₂ r₁ hf₁⟩

/-- C4 witness: the window with key ("Mail", 7) appears in two consecutive
scans with a changed title (`"Inbox"` then `"Drafts"`); its id is preserved. -/
theorem C4_witness :
    (∃ w ∈ ([⟨"Mail", 7, "Inbox", (0, 0, 0, 0), 0⟩] : List Engine.RawWindow),
        w.ownerName = "Mail" ∧ w.handle = 7) ∧
    (∃ w ∈ ([⟨"Mail", 7, "Drafts", (0, 0, 0, 0), 0⟩] : List Engine.RawWindow),
        w.ownerName = "Mail" ∧ w.handle = 7) ∧
    (∃ r₁ r₂,
      Engine.findKey
          (Engine.reconcile ⟨[], 0⟩
            [⟨"Mail", 7, "Inbox", (0, 0, 0, 0), 0⟩]).entries "Mail" 7 = some r₁ ∧
      Engine.findKey
          (Engine.reconcile
            (Engine.reconcile ⟨[], 0⟩ [⟨"Mail", 7, "Inbox", (0, 0, 0, 0), 0⟩])
            [⟨"Mail", 7, "Drafts", (0, 0, 0, 0), 0⟩]).entries "Mail" 7 = some r₂ ∧
      r₂.id = r₁.id) :=
  ⟨by decide, by decide,
   C4_identity_stable ⟨[], 0⟩ [⟨"Mail", 7, "Inbox", (0, 0, 0, 0), 0⟩]
     [⟨"Mail", 7, "Drafts", (0, 0, 0, 0), 0⟩] "Mail" 7 (by decide) (by decide)⟩

/-! ## Claim C6 -/

theorem forall₂_mem_left {α β : Type} {R : α → β → Prop} :
    ∀ {es : List α} {ws : List β}, List.Forall₂ R es ws →
      ∀ {e}, e ∈ es → ∃ w ∈ ws, R e w := by
  intro es ws h
  induction h with
  | nil => intro e he; cases he
  | cons h₁ h₂ ih =>
    intro e he
    rcases List.mem_cons.mp he with rfl | he'
    · exact ⟨_, List.mem_cons_self _ _, h₁⟩
    · obtain ⟨w, hw, hr⟩ := ih he'
      exact ⟨w, List.mem_cons_of_mem _ hw, hr⟩

theorem forall₂_pairwise_transfer {α β : Type} {R : α → β → Prop}
    {Q : β → β → Prop} {P : α → α → Prop}
    (H : ∀ e w e' w', R e w → R e' w' → Q w w' → P e e') :
    ∀ {es : List α} {ws : List β}, List.Forall₂ R es ws →
      List.Pairwise Q ws → List.Pairwise P es := by
  intro es ws h
  induction h with
  | nil => intro _; exact List.Pairwise.nil
  | cons h₁ h₂ ih =>
    intro hq
    obtain ⟨hq₁, hq₂⟩ := List.pairwise_cons.mp hq
    refine List.Pairwise.cons ?_ (ih hq₂)
    intro e' he'
    obtain ⟨w', hw', hr'⟩ := forall₂_mem_left h₂ he'
    exact H _ _ _ _ h₁ hr' (hq₁ w' hw')

/-- C6 (with the §3 no-ties invariant of a scan as hypothesis): every
RegistrySnapshot produced by reconciliation is sorted strictly by ascending
`zOrderRank`: every adjacent pair (a, b) satisfies
`a.zOrderRank < b.zOrderRank`. -/
theorem C6_snapshot_strictly_sorted (reg : Engine.Registry) (S : List Engine.RawWindow)
    (h : (S.map Engine.RawWindow.zOrderRank).Nodup) :
    List.Chain' (fun a b => a.zOrderRank < b.zOrderRank)
      (Engine.snapshot (Engine.reconcile reg S)) := by
  have hperm : List.Perm (Engine.sortScan S) S := List.perm_insertionSort _ S
  have hsorted : List.Pairwise Engine.zle (Engine.sortScan S) :=
    List.sorted_insertionSort Engine.zle S
  have hnd : ((Engine.sortScan S).map Engine.RawWindow.zOrderRank).Nodup :=
    ((hperm.map Engine.RawWindow.zOrderRank).nodup_iff).mpr h
  have hne : List.Pairwise
      (fun a b : Engine.RawWindow => a.zOrderRank ≠ b.zOrderRank) (Engine.sortScan S) :=
    List.pairwise_map.mp hnd
  have hlt : List.Pairwise
      (fun a b : Engine.RawWindow => a.zOrderRank < b.zOrderRank) (Engine.sortScan S) :=
    (hsorted.and hne).imp (fun hab => Nat.lt_of_le_of_ne hab.1 hab.2)
  have hall := reconcileList_forall₂ reg.entries (Engine.sortScan S) reg.nextId
  have hpe : List.Pairwise
      (fun e e' : Engine.KeyedRecord => e.record.zOrderRank < e'.record.zOrderRank)
      (Engine.reconcileList reg.entries reg.nextId (Engine.sortScan S)).1 := by
    refine forall₂_pairwise_transfer ?_ hall hlt
    intro e w e' w' he he' hq
    rw [he, he']
    exact hq
  have hps : List.Pairwise
      (fun a b : Engine.WindowRecord => a.zOrderRank < b.zOrderRank)
      (Engine.snapshot (Engine.reconcile reg S)) := List.pairwise_map.mpr hpe
  exact hps.chain'

/-- C6 witness: a three-window scan with shuffled distinct z-order ranks. -/
theorem C6_witness :
    (([⟨"A", 1, "t", (0, 0, 0, 0), 2⟩, ⟨"B", 2, "u", (0, 0, 0, 0), 0⟩,
       ⟨"C", 3, "v", (0, 0, 0, 0), 1⟩] :
        List Engine.RawWindow).map Engine.RawWindow.zOrderRank).Nodup ∧
    List.Chain' (fun a b => a.zOrderRank < b.zOrderRank)
      (Engine.snapshot (Engine.reconcile ⟨[], 0⟩
        [⟨"A", 1, "t", (0, 0, 0, 0), 2⟩, ⟨"B", 2, "u", (0, 0, 0, 0), 0⟩,
         ⟨"C", 3, "v", (0, 0, 0, 0), 1⟩])) :=
  ⟨by decide,
   C6_snapshot_strictly_sorted ⟨[], 0⟩
     [⟨"A", 1, "t", (0, 0, 0, 0), 2⟩, ⟨"B", 2, "u", (0, 0, 0, 0), 0⟩,
      ⟨"C", 3, "v", (0, 0, 0, 0), 1⟩] (by decide)⟩
